import Mathlib

/-!
# Verification of the `message-bus` core (`src/bus.rs`)

Shallow embedding of the type-erased publish/subscribe message bus.

Modelling conventions:

* A Rust `TypeId` is modelled as a `Nat`; message payloads are modelled as `Nat`
  (the claims only compare values for equality and order, and `clone` is the
  identity on the model).
* A type-erased `&dyn Any` message is a pair of its `TypeId` and its payload
  (`AnyMsg`); `downcast_ref::<M>` succeeds exactly when the stored tag equals
  `M`'s tag.
* The bus delegates buffering and delivery to `tokio::sync::broadcast`, an
  external dependency.  Its documented semantics are embedded directly:
  a channel is a grow-only log of successfully sent values of which only the
  last `capacity` entries are retained for readers; each `Receiver` is a cursor
  into that log; `send` fails (returning the value, buffering nothing) when
  there are zero live receivers; a receiver that has fallen more than
  `capacity` entries behind gets a `Lagged n` report and is advanced to the
  oldest retained entry; a receiver on a closed (all senders dropped) channel
  first drains the retained entries and then reports `Closed`.
  `broadcast::channel(cap)` asserts `0 < cap` and `cap ≤ usize::MAX / 2`
  (the model takes the configured capacity as the retained-window size;
  every capacity appearing in the claims is a power of two, where this is
  exact).
* Panics are explicit: `MessageBus.subscribe` returns a `SubscribeResult`
  whose non-`ok` constructors are the two panic sites of the Rust code
  (the `expect("FATAL: ...")` downcast assertion, and the
  `broadcast::channel` capacity assertion).  `publish` contains no panicking
  construct (`?` returns the error, `unwrap_or(0)` absorbs the
  zero-receiver `SendError`), so it is a total function into
  `Except String Nat` paired with the updated state.
-/

/-- A type-erased message (`&dyn Any`): the `TypeId` tag of its concrete type
together with its payload. -/
structure AnyMsg where
  tid : Nat
  payload : Nat
deriving DecidableEq, Repr

/-- Model of `msg.downcast_ref::<M>()`: recover the payload iff the tag matches. -/
def AnyMsg.downcastRef (m : AnyMsg) (tid : Nat) : Option Nat :=
  if m.tid = tid then some m.payload else none

/-- State of one `tokio::sync::broadcast` channel for element type `msgTid`.
`log` records every value ever successfully sent, in order; only the last
`capacity` entries are retained for receivers.  `receivers` counts live
`Receiver` handles, `closed` records that every `Sender` has been dropped
(bus teardown).  `id` is the channel's identity, assigned at creation and
never changed, so that "the entry for a type is never replaced" is a statement
about `id`. -/
structure ChanState where
  id : Nat
  msgTid : Nat
  capacity : Nat
  log : List Nat
  receivers : Nat
  closed : Bool
deriving DecidableEq, Repr

/-- A `broadcast::Receiver<M>` handle: the element-type tag, the identity of
the channel it reads, and its cursor (index into the channel's `log` of the
next value to consume). -/
structure ReceiverState where
  msgTid : Nat
  chanId : Nat
  cursor : Nat
deriving DecidableEq, Repr

/-- Result of `Receiver::recv()`.  `wouldBlock` stands for the suspension of
the async `recv` when the channel is open and the cursor is at the tail. -/
inductive RecvResult where
  | value (v : Nat)
  | lagged (n : Nat)
  | closed
  | wouldBlock
deriving DecidableEq, Repr

namespace Broadcast

/-- Model of `tokio::sync::broadcast::Sender::send(v)`: with zero live receivers the
value is refused (`Err(SendError(v))`, nothing buffered); otherwise it is
appended to the log and the number of live receivers is returned. -/
def send (c : ChanState) (v : Nat) : Except Nat (Nat × ChanState) :=
  if c.receivers = 0 then .error v
  else .ok (c.receivers, { c with log := c.log ++ [v] })

/-- Model of `Sender::subscribe()`: a fresh receiver positioned at the current tail
(it observes only values sent after this point). -/
def subscribeChan (c : ChanState) : ReceiverState × ChanState :=
  ({ msgTid := c.msgTid, chanId := c.id, cursor := c.log.length },
   { c with receivers := c.receivers + 1 })

/-- Model of `broadcast::channel::<M>(cap)`: panics (`none`) unless
`0 < cap ∧ cap ≤ usize::MAX / 2`; otherwise a fresh channel with one
receiver. -/
def channelNew (id msgTid cap : Nat) : Option (ChanState × ReceiverState) :=
  if cap = 0 ∨ 2 ^ 63 ≤ cap then none
  else
    some ({ id := id, msgTid := msgTid, capacity := cap, log := [],
            receivers := 1, closed := false },
          { msgTid := msgTid, chanId := id, cursor := 0 })

/-- Model of `Receiver::recv()` against channel state `c` from cursor position `cur`:
lag is reported (and the cursor advanced to the oldest retained entry) when
the receiver is more than `capacity` behind; otherwise the next value is
yielded; at the tail, a closed channel reports `Closed` and an open one
suspends. -/
def recv (c : ChanState) (cur : Nat) : RecvResult × Nat :=
  if h : cur < c.log.length then
    if c.capacity < c.log.length - cur then
      (.lagged (c.log.length - c.capacity - cur), c.log.length - c.capacity)
    else
      (.value (c.log.get ⟨cur, h⟩), cur + 1)
  else if c.closed then (.closed, cur)
  else (.wouldBlock, cur)

end Broadcast

/-- Model of `AnyChannel::send_any(msg)` for `broadcast::Sender<M>` (src/bus.rs:32-39):
downcast the erased message, returning `Err("Type mismatch")` on failure;
on success send a clone, mapping the zero-receiver `SendError` to `Ok(0)`.
Returns the delivered count together with the updated channel state. -/
def ChanState.sendAny (c : ChanState) (m : AnyMsg) :
    Except String (Nat × ChanState) :=
  match m.downcastRef c.msgTid with
  | none => .error "Type mismatch"
  | some v =>
    match Broadcast.send c v with
    | .error _ => .ok (0, c)
    | .ok (n, c') => .ok (n, c')

/-- The bus (src/bus.rs:50-57): an association list from `TypeId` to the
type-erased channel (the `HashMap<TypeId, Box<dyn AnyChannel>>`), plus the
fixed per-channel capacity.  `nextId` supplies fresh channel identities. -/
structure BusState where
  registry : List (Nat × ChanState)
  nextId : Nat
  default_capacity : Nat
deriving DecidableEq, Repr

/-- Model of `HashMap::get`: first entry with the given key. -/
def lookupChan : List (Nat × ChanState) → Nat → Option ChanState
  | [], _ => none
  | p :: ps, t => if p.1 = t then some p.2 else lookupChan ps t

/-- Replace the value stored at the first entry with the given key (in-place
mutation of the channel behind the map entry). -/
def updateChan : List (Nat × ChanState) → Nat → ChanState → List (Nat × ChanState)
  | [], _, _ => []
  | p :: ps, t, c => if p.1 = t then (p.1, c) :: ps else p :: updateChan ps t c

/-- Number of registry entries stored under a key. -/
def countKey (l : List (Nat × ChanState)) (t : Nat) : Nat :=
  l.countP (fun p => p.1 = t)

namespace MessageBus

/-- Model of `MessageBus::new(default_capacity)` (src/bus.rs:62-67): empty registry,
no failure mode. -/
def new (default_capacity : Nat) : BusState :=
  { registry := [], nextId := 0, default_capacity := default_capacity }

/-- Model of `MessageBus::publish::<M>(msg)` (src/bus.rs:76-84): look the channel up
under a read lock; absent means no subscribers, `Ok(0)`; present delegates to
`send_any`.  Returns the `Result` and the bus state after the call. -/
def publish (s : BusState) (tid v : Nat) : Except String Nat × BusState :=
  match lookupChan s.registry tid with
  | none => (.ok 0, s)
  | some c =>
    match c.sendAny ⟨tid, v⟩ with
    | .error e => (.error e, s)
    | .ok (n, c') => (.ok n, { s with registry := updateChan s.registry tid c' })

/-- Outcome of `MessageBus::subscribe`, with the two panic sites explicit:
`corruptionPanic` is the `expect("FATAL: MessageBus internal type
corruption...")` fired on a failed receiver downcast, `capacityPanic` the
assertion inside `broadcast::channel`. -/
inductive SubscribeResult where
  | ok (r : ReceiverState) (s : BusState)
  | corruptionPanic
  | capacityPanic
deriving DecidableEq, Repr

/-- Model of `MessageBus::subscribe::<M>()` (src/bus.rs:93-125).  Sequentially, the
read-locked fast path and the double-checked write-locked path collapse to:
if the channel exists, `subscribe_any` and downcast the erased receiver
(fatal assertion on tag mismatch); otherwise create a channel of the default
capacity and insert it.  (The two-phase interleaved protocol is modelled
separately by `Conc.cstep` for the concurrency claim.) -/
def subscribe (s : BusState) (tid : Nat) : SubscribeResult :=
  match lookupChan s.registry tid with
  | some c =>
    if c.msgTid = tid then
      let (r, c') := Broadcast.subscribeChan c
      .ok r { s with registry := updateChan s.registry tid c' }
    else .corruptionPanic
  | none =>
    match Broadcast.channelNew s.nextId tid s.default_capacity with
    | none => .capacityPanic
    | some (c, r) =>
      .ok r { s with registry := s.registry ++ [(tid, c)], nextId := s.nextId + 1 }

end MessageBus

/-- Dropping every bus handle drops every `Sender`, closing every channel;
the registry's channel states survive only through outstanding receivers. -/
def teardown (s : BusState) : BusState :=
  { s with registry := s.registry.map (fun p => (p.1, { p.2 with closed := true })) }

/-- Iterate `recv` a fixed number of times, threading the cursor, collecting
the results in order. -/
def recvN (c : ChanState) (cur : Nat) : Nat → List RecvResult × Nat
  | 0 => ([], cur)
  | n + 1 =>
    let p := Broadcast.recv c cur
    let q := recvN c p.2 n
    (p.1 :: q.1, q.2)

/-- Values carried by the `value` results of a receive trace. -/
def valuesOf : List RecvResult → List Nat
  | [] => []
  | .value v :: rs => v :: valuesOf rs
  | _ :: rs => valuesOf rs

/-- Everything a handle parked at cursor `i` observes by receiving until the
channel runs dry (length of log plus one receives always suffice: at most one
lag report followed by the retained values). -/
def observed (c : ChanState) (i : Nat) : List Nat :=
  valuesOf (recvN c i (c.log.length + 1)).1

/-- An externally driven bus operation (the public surface used by the
collaborators). -/
inductive BusOp where
  | pub (tid v : Nat)
  | sub (tid : Nat)
deriving DecidableEq, Repr

/-- Bus state after a subscribe call.  A subscribe that panics unwinds
without touching the registry (`broadcast::channel` panics before the
insert; the fast-path `expect` panics before any mutation of the map). -/
def BusState.stepSub (s : BusState) (tid : Nat) : BusState :=
  match MessageBus.subscribe s tid with
  | .ok _ s' => s'
  | _ => s

/-- Effect of one operation on the bus state. -/
def BusState.step (s : BusState) : BusOp → BusState
  | .pub tid v => (MessageBus.publish s tid v).2
  | .sub tid => s.stepSub tid

/-- Run a sequence of operations. -/
def BusState.run (s : BusState) : List BusOp → BusState
  | [] => s
  | op :: ops => (s.step op).run ops

/-- The sequence of states a run passes through (including start and end). -/
def BusState.trace (s : BusState) : List BusOp → List BusState
  | [] => [s]
  | op :: ops => s :: (s.step op).trace ops

/-- How many times a state trace inserts a channel under key `t` (a
transition from no entry to an entry). -/
def insertCount (t : Nat) : List BusState → Nat
  | s :: s' :: rest =>
    (if lookupChan s.registry t = none ∧ (lookupChan s'.registry t).isSome then 1 else 0)
      + insertCount t (s' :: rest)
  | _ => 0

/-- Well-keyed registry: every entry stores a channel whose element type is
exactly the entry's key (the property the `TypeId`-keyed map is meant to
guarantee). -/
def BusState.WK (s : BusState) : Prop :=
  ∀ p ∈ s.registry, p.2.msgTid = p.1

namespace Conc

/-- Progress of one task running `MessageBus::subscribe::<T>()`: before the
read-locked lookup, after a read miss (waiting for the write lock), or
finished holding a receiver. -/
inductive TaskState where
  | start
  | slow
  | done (r : ReceiverState)
deriving DecidableEq, Repr

/-- Bool-valued test for a finished task. -/
def TaskState.isDone : TaskState → Bool
  | .done _ => true
  | _ => false

/-- Shared bus plus the program counters of `N` concurrent subscribers. -/
structure ConcState where
  bus : BusState
  tasks : List TaskState
deriving DecidableEq, Repr

/-- Found-branch of `subscribe` (both the read-locked fast path and the
double-check under the write lock): `subscribe_any` on the existing channel,
whose receiver-count bump is internally synchronized in the channel. -/
def subFound (b : BusState) (tid : Nat) (c : ChanState) :
    ReceiverState × BusState :=
  let p := Broadcast.subscribeChan c
  (p.1, { b with registry := updateChan b.registry tid p.2 })

/-- One atomic step of task `i` subscribing to `tid` (src/bus.rs:93-125).
A task at `start` performs the read-locked lookup: on a hit it downcasts and
returns (one atomic section under the read lock), on a miss it releases the
read lock and queues for the write lock (`slow`).  A task at `slow` runs the
whole write-locked section atomically: re-check, then either subscribe to the
channel another task inserted meanwhile, or create and insert the new channel.
Steps of distinct tasks interleave arbitrarily via the schedule. -/
def cstep (tid : Nat) (s : ConcState) (i : Nat) : ConcState :=
  match s.tasks.get? i with
  | some .start =>
    match lookupChan s.bus.registry tid with
    | some c =>
      if c.msgTid = tid then
        let p := subFound s.bus tid c
        { bus := p.2, tasks := s.tasks.set i (.done p.1) }
      else s
    | none => { s with tasks := s.tasks.set i .slow }
  | some .slow =>
    match lookupChan s.bus.registry tid with
    | some c =>
      if c.msgTid = tid then
        let p := subFound s.bus tid c
        { bus := p.2, tasks := s.tasks.set i (.done p.1) }
      else s
    | none =>
      match Broadcast.channelNew s.bus.nextId tid s.bus.default_capacity with
      | none => s
      | some (c, r) =>
        let b' : BusState :=
          { s.bus with registry := s.bus.registry ++ [(tid, c)],
                       nextId := s.bus.nextId + 1 }
        { bus := b', tasks := s.tasks.set i (.done r) }
  | _ => s

/-- Run a schedule (list of task indices; each entry lets that task take its
next atomic step). -/
def crun (tid : Nat) (s : ConcState) : List Nat → ConcState
  | [] => s
  | i :: sched => crun tid (cstep tid s i) sched

/-- Number of finished tasks. -/
def doneCount : List TaskState → Nat
  | [] => 0
  | t :: ts => (if t.isDone then 1 else 0) + doneCount ts

/-- Every task has finished its subscribe call. -/
def AllDone (ts : List TaskState) : Prop :=
  ∀ t ∈ ts, t.isDone = true

end Conc

/-! ## Association-list registry lemmas -/

theorem lookupChan_updateChan_self {l : List (Nat × ChanState)} {t : Nat} {c : ChanState}
    (h : lookupChan l t = some c) (c' : ChanState) :
    lookupChan (updateChan l t c') t = some c' := by
  induction l with
  | nil => simp [lookupChan] at h
  | cons p ps ih =>
    by_cases hp : p.1 = t
    · simp [lookupChan, updateChan, hp]
    · simp [lookupChan, updateChan, hp] at h ⊢
      exact ih h

theorem lookupChan_updateChan_ne {l : List (Nat × ChanState)} {t t' : Nat} (c' : ChanState)
    (h : t ≠ t') :
    lookupChan (updateChan l t c') t' = lookupChan l t' := by
  induction l with
  | nil => simp [updateChan]
  | cons p ps ih =>
    by_cases hp : p.1 = t
    · subst hp
      simp [lookupChan, updateChan, h]
    · simp [lookupChan, updateChan, hp]
      by_cases hq : p.1 = t'
      · simp [hq]
      · simp [hq]
        exact ih

theorem updateChan_self {l : List (Nat × ChanState)} {t : Nat} {c : ChanState}
    (h : lookupChan l t = some c) : updateChan l t c = l := by
  induction l with
  | nil => simp [lookupChan] at h
  | cons p ps ih =>
    by_cases hp : p.1 = t
    · simp [lookupChan, hp] at h
      simp [updateChan, hp, ← h]
      rw [← hp]
    · simp [lookupChan, hp] at h
      simp [updateChan, hp, ih h]

theorem lookupChan_append_some {l l' : List (Nat × ChanState)} {t : Nat} {c : ChanState}
    (h : lookupChan l t = some c) : lookupChan (l ++ l') t = some c := by
  induction l with
  | nil => simp [lookupChan] at h
  | cons p ps ih =>
    by_cases hp : p.1 = t
    · simp [lookupChan, hp] at h ⊢
      exact h
    · simp [lookupChan, hp] at h ⊢
      exact ih h

theorem lookupChan_append_none {l l' : List (Nat × ChanState)} {t : Nat}
    (h : lookupChan l t = none) : lookupChan (l ++ l') t = lookupChan l' t := by
  induction l with
  | nil => simp
  | cons p ps ih =>
    by_cases hp : p.1 = t
    · simp [lookupChan, hp] at h
    · simp [lookupChan, hp] at h ⊢
      exact ih h

theorem lookupChan_mem {l : List (Nat × ChanState)} {t : Nat} {c : ChanState}
    (h : lookupChan l t = some c) : (t, c) ∈ l := by
  induction l with
  | nil => simp [lookupChan] at h
  | cons p ps ih =>
    by_cases hp : p.1 = t
    · simp [lookupChan, hp] at h
      subst hp
      subst h
      exact List.mem_cons_self _ _
    · simp [lookupChan, hp] at h
      exact List.mem_cons_of_mem _ (ih h)

theorem mem_updateChan {l : List (Nat × ChanState)} {t : Nat} {c' : ChanState}
    {p : Nat × ChanState} (h : p ∈ updateChan l t c') : p ∈ l ∨ p = (t, c') := by
  induction l with
  | nil => simp [updateChan] at h
  | cons q qs ih =>
    by_cases hq : q.1 = t
    · simp [updateChan, hq] at h
      rcases h with h | h
      · right
        exact h
      · left
        exact List.mem_cons_of_mem _ h
    · simp [updateChan, hq] at h
      rcases h with h | h
      · left
        simp [h]
      · rcases ih h with h' | h'
        · left
          exact List.mem_cons_of_mem _ h'
        · right
          exact h'

theorem keys_updateChan (l : List (Nat × ChanState)) (t : Nat) (c' : ChanState) :
    (updateChan l t c').map Prod.fst = l.map Prod.fst := by
  induction l with
  | nil => simp [updateChan]
  | cons p ps ih =>
    by_cases hp : p.1 = t
    · simp [updateChan, hp]
    · simp [updateChan, hp, ih]

theorem lookupChan_eq_none_iff {l : List (Nat × ChanState)} {t : Nat} :
    lookupChan l t = none ↔ t ∉ l.map Prod.fst := by
  induction l with
  | nil => simp [lookupChan]
  | cons p ps ih =>
    by_cases hp : p.1 = t
    · simp [lookupChan, hp]
    · have hl : lookupChan (p :: ps) t = lookupChan ps t := by simp [lookupChan, hp]
      rw [hl, ih, List.map_cons, List.mem_cons]
      constructor
      · intro h hmem
        rcases hmem with h1 | h1
        · exact hp h1.symm
        · exact h h1
      · intro h h1
        exact h (Or.inr h1)

theorem countKey_updateChan (l : List (Nat × ChanState)) (t t' : Nat) (c' : ChanState) :
    countKey (updateChan l t c') t' = countKey l t' := by
  induction l with
  | nil => simp [updateChan]
  | cons p ps ih =>
    by_cases hp : p.1 = t
    · simp [countKey, updateChan, hp, List.countP_cons] at ih ⊢
    · simp [countKey, updateChan, hp, List.countP_cons] at ih ⊢
      omega

theorem countKey_eq_zero_of_lookup_none {l : List (Nat × ChanState)} {t : Nat}
    (h : lookupChan l t = none) : countKey l t = 0 := by
  induction l with
  | nil => simp [countKey]
  | cons p ps ih =>
    by_cases hp : p.1 = t
    · simp [lookupChan, hp] at h
    · simp [lookupChan, hp] at h
      simp [countKey, List.countP_cons, hp] at ih ⊢
      exact ih h

theorem countKey_append (l l' : List (Nat × ChanState)) (t : Nat) :
    countKey (l ++ l') t = countKey l t + countKey l' t := by
  simp [countKey, List.countP_append]

/-! ## Channel-operation lemmas -/

theorem sendAny_matched {c : ChanState} (v : Nat) (h : 0 < c.receivers) :
    c.sendAny ⟨c.msgTid, v⟩ = .ok (c.receivers, { c with log := c.log ++ [v] }) := by
  unfold ChanState.sendAny AnyMsg.downcastRef Broadcast.send
  simp [Nat.pos_iff_ne_zero.mp h]

theorem sendAny_zero_receivers {c : ChanState} (v : Nat) (h : c.receivers = 0) :
    c.sendAny ⟨c.msgTid, v⟩ = .ok (0, c) := by
  unfold ChanState.sendAny AnyMsg.downcastRef Broadcast.send
  simp [h]

theorem sendAny_mismatch {c : ChanState} {m : AnyMsg} (h : m.tid ≠ c.msgTid) :
    c.sendAny m = .error "Type mismatch" := by
  unfold ChanState.sendAny AnyMsg.downcastRef
  simp [h]

theorem sendAny_ok_fields {c c' : ChanState} {m : AnyMsg} {n : Nat}
    (h : c.sendAny m = .ok (n, c')) :
    c'.id = c.id ∧ c'.msgTid = c.msgTid ∧ c'.capacity = c.capacity ∧
      c'.receivers = c.receivers ∧ c'.closed = c.closed := by
  unfold ChanState.sendAny at h
  split at h
  · exact absurd h (by simp)
  · split at h
    · injection h with h1
      injection h1 with h2 h3
      rw [← h3]
      exact ⟨rfl, rfl, rfl, rfl, rfl⟩
    · rename_i v _ n' c'' hs
      injection h with h1
      injection h1 with h2 h3
      unfold Broadcast.send at hs
      split at hs
      · exact absurd hs (by simp)
      · injection hs with h4
        injection h4 with h5 h6
        rw [← h3, ← h6]
        exact ⟨rfl, rfl, rfl, rfl, rfl⟩

theorem channelNew_valid {id msgTid cap : Nat} (h0 : cap ≠ 0) (h1 : cap < 2 ^ 63) :
    Broadcast.channelNew id msgTid cap =
      some (⟨id, msgTid, cap, [], 1, false⟩, ⟨msgTid, id, 0⟩) := by
  unfold Broadcast.channelNew
  rw [if_neg]
  rintro (hc | hc)
  · exact h0 hc
  · exact Nat.not_le.mpr h1 hc

theorem channelNew_inv {id msgTid cap : Nat} {c : ChanState} {r : ReceiverState}
    (h : Broadcast.channelNew id msgTid cap = some (c, r)) :
    c = ⟨id, msgTid, cap, [], 1, false⟩ ∧ r = ⟨msgTid, id, 0⟩ ∧
      cap ≠ 0 ∧ cap < 2 ^ 63 := by
  unfold Broadcast.channelNew at h
  split at h
  · exact absurd h (by simp)
  · rename_i hcond
    push_neg at hcond
    injection h with h1
    injection h1 with h2 h3
    exact ⟨h2.symm, h3.symm, hcond.1, hcond.2⟩

/-! ## Publish and subscribe case analysis -/

theorem publish_not_found {s : BusState} {tid : Nat}
    (h : lookupChan s.registry tid = none) (v : Nat) :
    MessageBus.publish s tid v = (.ok 0, s) := by
  unfold MessageBus.publish
  rw [h]

theorem publish_found {s : BusState} {tid : Nat} {c : ChanState}
    (h : lookupChan s.registry tid = some c) (hm : c.msgTid = tid)
    (hr : 0 < c.receivers) (v : Nat) :
    MessageBus.publish s tid v =
      (.ok c.receivers,
       { s with registry := updateChan s.registry tid { c with log := c.log ++ [v] } }) := by
  subst hm
  unfold MessageBus.publish
  rw [h]
  dsimp only
  rw [sendAny_matched v hr]

theorem publish_found_zero {s : BusState} {tid : Nat} {c : ChanState}
    (h : lookupChan s.registry tid = some c) (hm : c.msgTid = tid)
    (hr : c.receivers = 0) (v : Nat) :
    MessageBus.publish s tid v = (.ok 0, s) := by
  subst hm
  unfold MessageBus.publish
  rw [h]
  dsimp only
  rw [sendAny_zero_receivers v hr]
  dsimp only
  rw [updateChan_self h]

theorem publish_mismatch {s : BusState} {tid : Nat} {c : ChanState}
    (h : lookupChan s.registry tid = some c) (hm : c.msgTid ≠ tid) (v : Nat) :
    MessageBus.publish s tid v = (.error "Type mismatch", s) := by
  unfold MessageBus.publish
  rw [h]
  dsimp only
  rw [sendAny_mismatch (show (⟨tid, v⟩ : AnyMsg).tid ≠ c.msgTid from fun he => hm he.symm)]

theorem subscribe_found {s : BusState} {tid : Nat} {c : ChanState}
    (h : lookupChan s.registry tid = some c) (hm : c.msgTid = tid) :
    MessageBus.subscribe s tid =
      .ok ⟨c.msgTid, c.id, c.log.length⟩
        { s with registry := updateChan s.registry tid { c with receivers := c.receivers + 1 } } := by
  unfold MessageBus.subscribe
  rw [h]
  simp [hm, Broadcast.subscribeChan]

theorem subscribe_found_mismatch {s : BusState} {tid : Nat} {c : ChanState}
    (h : lookupChan s.registry tid = some c) (hm : c.msgTid ≠ tid) :
    MessageBus.subscribe s tid = .corruptionPanic := by
  unfold MessageBus.subscribe
  rw [h]
  simp [hm]

theorem subscribe_new {s : BusState} {tid : Nat}
    (h : lookupChan s.registry tid = none)
    (h0 : s.default_capacity ≠ 0) (h1 : s.default_capacity < 2 ^ 63) :
    MessageBus.subscribe s tid =
      .ok ⟨tid, s.nextId, 0⟩
        { s with registry := s.registry ++ [(tid, ⟨s.nextId, tid, s.default_capacity, [], 1, false⟩)],
                 nextId := s.nextId + 1 } := by
  unfold MessageBus.subscribe
  rw [h, channelNew_valid h0 h1]

theorem subscribe_new_panic {s : BusState} {tid : Nat}
    (h : lookupChan s.registry tid = none)
    (hc : s.default_capacity = 0 ∨ 2 ^ 63 ≤ s.default_capacity) :
    MessageBus.subscribe s tid = .capacityPanic := by
  unfold MessageBus.subscribe
  rw [h]
  dsimp only
  have hnone : Broadcast.channelNew s.nextId tid s.default_capacity = none := by
    unfold Broadcast.channelNew
    rw [if_pos hc]
  rw [hnone]

theorem subscribe_ok_inversion {s : BusState} {tid : Nat} {r : ReceiverState} {s' : BusState}
    (h : MessageBus.subscribe s tid = .ok r s') :
    (∃ c, lookupChan s.registry tid = some c ∧ c.msgTid = tid ∧
        r = ⟨c.msgTid, c.id, c.log.length⟩ ∧
        s' = { s with registry := updateChan s.registry tid { c with receivers := c.receivers + 1 } })
    ∨ (lookupChan s.registry tid = none ∧
        r = ⟨tid, s.nextId, 0⟩ ∧
        s' = { s with registry := s.registry ++ [(tid, ⟨s.nextId, tid, s.default_capacity, [], 1, false⟩)],
                      nextId := s.nextId + 1 }) := by
  cases hl : lookupChan s.registry tid with
  | some c =>
    by_cases hm : c.msgTid = tid
    · rw [subscribe_found hl hm] at h
      injection h with h1 h2
      exact Or.inl ⟨c, rfl, hm, h1.symm, h2.symm⟩
    · rw [subscribe_found_mismatch hl hm] at h
      exact absurd h (by simp)
  | none =>
    cases hn : Broadcast.channelNew s.nextId tid s.default_capacity with
    | none =>
      have : MessageBus.subscribe s tid = .capacityPanic := by
        unfold MessageBus.subscribe
        rw [hl, hn]
      rw [this] at h
      exact absurd h (by simp)
    | some p =>
      obtain ⟨hc, hr, h0, h1⟩ := channelNew_inv (c := p.1) (r := p.2) (by rw [hn])
      rw [subscribe_new hl h0 h1] at h
      injection h with h1 h2
      exact Or.inr ⟨rfl, h1.symm, h2.symm⟩

/-! ## Registry persistence across operations -/

/-- Two channel states are the same channel object: same identity, element
type, and capacity (only the internal buffer bookkeeping may differ). -/
def SameChan (c c' : ChanState) : Prop :=
  c'.id = c.id ∧ c'.msgTid = c.msgTid ∧ c'.capacity = c.capacity

theorem sameChan_refl (c : ChanState) : SameChan c c := ⟨rfl, rfl, rfl⟩

theorem sameChan_trans {a b c : ChanState} (h1 : SameChan a b) (h2 : SameChan b c) :
    SameChan a c :=
  ⟨h2.1.trans h1.1, h2.2.1.trans h1.2.1, h2.2.2.trans h1.2.2⟩

theorem publish_lookup_some {s : BusState} {t : Nat} {c : ChanState}
    (h : lookupChan s.registry t = some c) (tid v : Nat) :
    ∃ c', lookupChan (MessageBus.publish s tid v).2.registry t = some c' ∧ SameChan c c' := by
  cases hl : lookupChan s.registry tid with
  | none =>
    rw [publish_not_found hl v]
    exact ⟨c, h, sameChan_refl c⟩
  | some c2 =>
    by_cases hm : c2.msgTid = tid
    · rcases Nat.eq_zero_or_pos c2.receivers with hr | hr
      · rw [publish_found_zero hl hm hr v]
        exact ⟨c, h, sameChan_refl c⟩
      · rw [publish_found hl hm hr v]
        by_cases ht : tid = t
        · subst ht
          rw [h] at hl
          injection hl with he
          subst he
          exact ⟨_, lookupChan_updateChan_self h _, rfl, rfl, rfl⟩
        · exact ⟨c, by rw [lookupChan_updateChan_ne _ ht]; exact h, sameChan_refl c⟩
    · rw [publish_mismatch hl hm v]
      exact ⟨c, h, sameChan_refl c⟩

theorem step_lookup_some {s : BusState} {t : Nat} {c : ChanState}
    (h : lookupChan s.registry t = some c) (op : BusOp) :
    ∃ c', lookupChan (s.step op).registry t = some c' ∧ SameChan c c' := by
  cases op with
  | pub tid v => exact publish_lookup_some h tid v
  | sub tid =>
    show ∃ c', lookupChan (s.stepSub tid).registry t = some c' ∧ _
    unfold BusState.stepSub
    cases hsub : MessageBus.subscribe s tid with
    | corruptionPanic => exact ⟨c, h, sameChan_refl c⟩
    | capacityPanic => exact ⟨c, h, sameChan_refl c⟩
    | ok r s' =>
      rcases subscribe_ok_inversion hsub with ⟨c2, hl, hm, hr, hs'⟩ | ⟨hl, hr, hs'⟩
      · subst hs'
        by_cases ht : tid = t
        · subst ht
          rw [h] at hl
          injection hl with he
          subst he
          exact ⟨_, lookupChan_updateChan_self h _, rfl, rfl, rfl⟩
        · exact ⟨c, by rw [lookupChan_updateChan_ne _ ht]; exact h, sameChan_refl c⟩
      · subst hs'
        exact ⟨c, lookupChan_append_some h, sameChan_refl c⟩

theorem run_lookup_some {s : BusState} {t : Nat} {c : ChanState}
    (h : lookupChan s.registry t = some c) (ops : List BusOp) :
    ∃ c', lookupChan (s.run ops).registry t = some c' ∧ SameChan c c' := by
  induction ops generalizing s c with
  | nil => exact ⟨c, h, sameChan_refl c⟩
  | cons op ops ih =>
    obtain ⟨c1, h1, hs1⟩ := step_lookup_some h op
    obtain ⟨c2, h2, hs2⟩ := ih h1
    exact ⟨c2, h2, sameChan_trans hs1 hs2⟩

theorem step_lookup_isSome {s : BusState} {t : Nat}
    (h : (lookupChan s.registry t).isSome) (op : BusOp) :
    (lookupChan ((s.step op).registry) t).isSome := by
  rw [Option.isSome_iff_exists] at h
  obtain ⟨c, hc⟩ := h
  obtain ⟨c', hc', _⟩ := step_lookup_some hc op
  rw [hc']
  rfl

/-! ## Insertion counting -/

theorem trace_cons_eq (s : BusState) (op : BusOp) (ops : List BusOp) :
    s.trace (op :: ops) = s :: (s.step op).trace ops := rfl

theorem trace_shape (s : BusState) (ops : List BusOp) :
    ∃ rest, s.trace ops = s :: rest := by
  cases ops with
  | nil => exact ⟨[], rfl⟩
  | cons op ops => exact ⟨(s.step op).trace ops, rfl⟩

theorem insertCount_trace_cons (t : Nat) (s : BusState) (op : BusOp) (ops : List BusOp) :
    insertCount t (s.trace (op :: ops)) =
      (if lookupChan s.registry t = none ∧
          (lookupChan ((s.step op).registry) t).isSome then 1 else 0)
        + insertCount t ((s.step op).trace ops) := by
  obtain ⟨rest, hrest⟩ := trace_shape (s.step op) ops
  rw [trace_cons_eq, hrest]
  rfl

theorem insertCount_zero_of_isSome {t : Nat} {s : BusState}
    (h : (lookupChan s.registry t).isSome) (ops : List BusOp) :
    insertCount t (s.trace ops) = 0 := by
  induction ops generalizing s with
  | nil => rfl
  | cons op ops ih =>
    rw [insertCount_trace_cons]
    rw [if_neg, ih (step_lookup_isSome h op), Nat.add_zero]
    intro hcon
    rw [hcon.1] at h
    exact absurd h (by simp)

theorem insertCount_le_one (t : Nat) (s : BusState) (ops : List BusOp) :
    insertCount t (s.trace ops) ≤ 1 := by
  induction ops generalizing s with
  | nil => exact Nat.zero_le 1
  | cons op ops ih =>
    rw [insertCount_trace_cons]
    cases hs : lookupChan s.registry t with
    | some c =>
      rw [if_neg, Nat.zero_add]
      · exact ih (s.step op)
      · exact fun hcon => absurd hcon.1 (by simp)
    | none =>
      cases hs' : (lookupChan ((s.step op).registry) t).isSome with
      | false =>
        rw [if_neg, Nat.zero_add]
        · exact ih (s.step op)
        · exact fun hcon => absurd hcon.2 (by simp)
      | true =>
        rw [if_pos ⟨rfl, rfl⟩, insertCount_zero_of_isSome hs' ops]

/-! ## Well-keying: the registry maps a `TypeId` only to a channel of that
element type; preserved by every operation, and forcing the downcast
branches. -/

theorem WK_new (cap : Nat) : (MessageBus.new cap).WK := by
  intro p hp
  exact absurd hp (by simp [MessageBus.new])

theorem WK_publish {s : BusState} (h : s.WK) (tid v : Nat) :
    (MessageBus.publish s tid v).2.WK := by
  cases hl : lookupChan s.registry tid with
  | none => rw [publish_not_found hl v]; exact h
  | some c =>
    by_cases hm : c.msgTid = tid
    · rcases Nat.eq_zero_or_pos c.receivers with hr | hr
      · rw [publish_found_zero hl hm hr v]; exact h
      · rw [publish_found hl hm hr v]
        intro p hp
        rcases mem_updateChan hp with hp' | hp'
        · exact h p hp'
        · rw [hp']
          exact hm
    · rw [publish_mismatch hl hm v]; exact h

theorem WK_step {s : BusState} (h : s.WK) (op : BusOp) : (s.step op).WK := by
  cases op with
  | pub tid v => exact WK_publish h tid v
  | sub tid =>
    show (s.stepSub tid).WK
    unfold BusState.stepSub
    cases hsub : MessageBus.subscribe s tid with
    | corruptionPanic => exact h
    | capacityPanic => exact h
    | ok r s' =>
      rcases subscribe_ok_inversion hsub with ⟨c2, hl, hm, hr, hs'⟩ | ⟨hl, hr, hs'⟩
      · subst hs'
        intro p hp
        rcases mem_updateChan hp with hp' | hp'
        · exact h p hp'
        · rw [hp']
          exact hm
      · subst hs'
        intro p hp
        rcases List.mem_append.mp hp with hp' | hp'
        · exact h p hp'
        · rw [List.mem_singleton.mp hp']

theorem WK_run {s : BusState} (h : s.WK) (ops : List BusOp) : (s.run ops).WK := by
  induction ops generalizing s with
  | nil => exact h
  | cons op ops ih => exact ih (WK_step h op)

/-! ## No duplicate keys -/

theorem keys_nodup_step {s : BusState} (h : (s.registry.map Prod.fst).Nodup) (op : BusOp) :
    (((s.step op).registry).map Prod.fst).Nodup := by
  cases op with
  | pub tid v =>
    show (((MessageBus.publish s tid v).2.registry).map Prod.fst).Nodup
    cases hl : lookupChan s.registry tid with
    | none => rw [publish_not_found hl v]; exact h
    | some c =>
      by_cases hm : c.msgTid = tid
      · rcases Nat.eq_zero_or_pos c.receivers with hr | hr
        · rw [publish_found_zero hl hm hr v]; exact h
        · rw [publish_found hl hm hr v]
          show ((updateChan s.registry tid _).map Prod.fst).Nodup
          rw [keys_updateChan]
          exact h
      · rw [publish_mismatch hl hm v]; exact h
  | sub tid =>
    show (((s.stepSub tid).registry).map Prod.fst).Nodup
    unfold BusState.stepSub
    cases hsub : MessageBus.subscribe s tid with
    | corruptionPanic => exact h
    | capacityPanic => exact h
    | ok r s' =>
      rcases subscribe_ok_inversion hsub with ⟨c2, hl, hm, hr, hs'⟩ | ⟨hl, hr, hs'⟩
      · subst hs'
        show ((updateChan s.registry tid _).map Prod.fst).Nodup
        rw [keys_updateChan]
        exact h
      · subst hs'
        show ((s.registry ++ [_]).map Prod.fst).Nodup
        rw [List.map_append]
        rw [List.nodup_append]
        refine ⟨h, List.nodup_singleton _, ?_⟩
        intro a ha hmem
        rw [List.mem_singleton.mp hmem] at ha
        exact lookupChan_eq_none_iff.mp hl ha

theorem keys_nodup_run {s : BusState} (h : (s.registry.map Prod.fst).Nodup) (ops : List BusOp) :
    (((s.run ops).registry).map Prod.fst).Nodup := by
  induction ops generalizing s with
  | nil => exact h
  | cons op ops ih => exact ih (keys_nodup_step h op)

/-! ## Receive-trace lemmas -/

theorem recvN_succ (c : ChanState) (cur n : Nat) :
    recvN c cur (n + 1) =
      ((Broadcast.recv c cur).1 :: (recvN c (Broadcast.recv c cur).2 n).1,
       (recvN c (Broadcast.recv c cur).2 n).2) := rfl

theorem valuesOf_cons_value (v : Nat) (rs : List RecvResult) :
    valuesOf (.value v :: rs) = v :: valuesOf rs := rfl

theorem valuesOf_cons_lagged (n : Nat) (rs : List RecvResult) :
    valuesOf (.lagged n :: rs) = valuesOf rs := rfl

theorem valuesOf_cons_closed (rs : List RecvResult) :
    valuesOf (.closed :: rs) = valuesOf rs := rfl

theorem valuesOf_cons_wouldBlock (rs : List RecvResult) :
    valuesOf (.wouldBlock :: rs) = valuesOf rs := rfl

theorem recv_value {c : ChanState} {cur : Nat} (h : cur < c.log.length)
    (h2 : c.log.length - cur ≤ c.capacity) :
    Broadcast.recv c cur = (.value (c.log.get ⟨cur, h⟩), cur + 1) := by
  unfold Broadcast.recv
  rw [dif_pos h, if_neg (Nat.not_lt.mpr h2)]

theorem recv_lagged {c : ChanState} {cur : Nat} (h : c.capacity < c.log.length - cur) :
    Broadcast.recv c cur =
      (.lagged (c.log.length - c.capacity - cur), c.log.length - c.capacity) := by
  have hlt : cur < c.log.length := by omega
  unfold Broadcast.recv
  rw [dif_pos hlt, if_pos h]

theorem recv_tail_closed {c : ChanState} {cur : Nat} (h : c.log.length ≤ cur)
    (hc : c.closed = true) : Broadcast.recv c cur = (.closed, cur) := by
  unfold Broadcast.recv
  rw [dif_neg (Nat.not_lt.mpr h), if_pos hc]

theorem recv_tail_open {c : ChanState} {cur : Nat} (h : c.log.length ≤ cur)
    (hc : c.closed = false) : Broadcast.recv c cur = (.wouldBlock, cur) := by
  unfold Broadcast.recv
  rw [dif_neg (Nat.not_lt.mpr h), if_neg (by rw [hc]; exact Bool.false_ne_true)]

theorem valuesOf_recvN_stuck {c : ChanState} {cur : Nat} (h : c.log.length ≤ cur)
    (n : Nat) : valuesOf (recvN c cur n).1 = [] := by
  induction n with
  | zero => rfl
  | succ n ih =>
    rw [recvN_succ]
    cases hc : c.closed with
    | true => rw [recv_tail_closed h hc, valuesOf_cons_closed]; exact ih
    | false => rw [recv_tail_open h hc, valuesOf_cons_wouldBlock]; exact ih

theorem valuesOf_recvN_drop {c : ChanState} (n : Nat) :
    ∀ cur, c.log.length - c.capacity ≤ cur → c.log.length ≤ cur + n →
      valuesOf (recvN c cur n).1 = c.log.drop cur := by
  induction n with
  | zero =>
    intro cur h1 h2
    rw [Nat.add_zero] at h2
    rw [List.drop_eq_nil_of_le h2]
    rfl
  | succ n ih =>
    intro cur h1 h2
    by_cases hlt : cur < c.log.length
    · have hnol : c.log.length - cur ≤ c.capacity := by omega
      rw [recvN_succ, recv_value hlt hnol, valuesOf_cons_value,
          ih (cur + 1) (by omega) (by omega), List.drop_eq_getElem_cons hlt]
      rfl
    · have hle : c.log.length ≤ cur := Nat.le_of_not_lt hlt
      rw [recvN_succ, List.drop_eq_nil_of_le hle]
      cases hc : c.closed with
      | true => rw [recv_tail_closed hle hc, valuesOf_cons_closed]; exact valuesOf_recvN_stuck hle n
      | false => rw [recv_tail_open hle hc, valuesOf_cons_wouldBlock]; exact valuesOf_recvN_stuck hle n

/-- What a handle parked at cursor `i` observes is exactly the suffix of the
publish log starting at its cursor, or at the oldest retained entry if it has
lagged past. -/
theorem observed_eq (c : ChanState) (i : Nat) :
    observed c i = c.log.drop (max i (c.log.length - c.capacity)) := by
  unfold observed
  by_cases hlag : c.capacity < c.log.length - i
  · have hmax : max i (c.log.length - c.capacity) = c.log.length - c.capacity := by omega
    rw [recvN_succ, recv_lagged hlag, valuesOf_cons_lagged,
        valuesOf_recvN_drop c.log.length (c.log.length - c.capacity) (by omega) (by omega),
        hmax]
  · have hmax : max i (c.log.length - c.capacity) = i := by omega
    rw [valuesOf_recvN_drop (c.log.length + 1) i (by omega) (by omega), hmax]

theorem observed_suffix (c : ChanState) (i : Nat) : observed c i <:+ c.log := by
  rw [observed_eq]
  exact List.drop_suffix _ _

/-! ## Teardown lemmas -/

theorem lookupChan_map_closed (l : List (Nat × ChanState)) (t : Nat) :
    lookupChan (l.map (fun p => (p.1, { p.2 with closed := true }))) t =
      (lookupChan l t).map (fun c => { c with closed := true }) := by
  induction l with
  | nil => rfl
  | cons p ps ih =>
    by_cases hp : p.1 = t
    · simp [lookupChan, hp]
    · simp [lookupChan, hp, ih]

theorem lookupChan_teardown (s : BusState) (t : Nat) :
    lookupChan (teardown s).registry t =
      (lookupChan s.registry t).map (fun c => { c with closed := true }) :=
  lookupChan_map_closed s.registry t

theorem recvN_closed_replicate {c : ChanState} {cur : Nat} (hc : c.closed = true)
    (h : c.log.length ≤ cur) (n : Nat) :
    recvN c cur n = (List.replicate n RecvResult.closed, cur) := by
  induction n with
  | zero => rfl
  | succ n ih =>
    rw [recvN_succ, recv_tail_closed h hc]
    rw [show ((RecvResult.closed, cur) : RecvResult × Nat).2 = cur from rfl, ih,
        List.replicate_succ]

/-! ## Concurrent first-time subscription: step equations -/

namespace Conc

theorem cstep_none {tid : Nat} {s : ConcState} {i : Nat}
    (h : s.tasks.get? i = none) : cstep tid s i = s := by
  unfold cstep
  rw [h]

theorem cstep_done {tid : Nat} {s : ConcState} {i : Nat} {r : ReceiverState}
    (h : s.tasks.get? i = some (.done r)) : cstep tid s i = s := by
  unfold cstep
  rw [h]

theorem cstep_start_found {tid : Nat} {s : ConcState} {i : Nat} {c : ChanState}
    (h : s.tasks.get? i = some .start)
    (hl : lookupChan s.bus.registry tid = some c) (hm : c.msgTid = tid) :
    cstep tid s i = { bus := (subFound s.bus tid c).2,
                      tasks := s.tasks.set i (.done (subFound s.bus tid c).1) } := by
  unfold cstep
  rw [h]
  dsimp only
  rw [hl]
  dsimp only
  rw [if_pos hm]

theorem cstep_start_found_mismatch {tid : Nat} {s : ConcState} {i : Nat} {c : ChanState}
    (h : s.tasks.get? i = some .start)
    (hl : lookupChan s.bus.registry tid = some c) (hm : c.msgTid ≠ tid) :
    cstep tid s i = s := by
  unfold cstep
  rw [h]
  dsimp only
  rw [hl]
  dsimp only
  rw [if_neg hm]

theorem cstep_start_miss {tid : Nat} {s : ConcState} {i : Nat}
    (h : s.tasks.get? i = some .start)
    (hl : lookupChan s.bus.registry tid = none) :
    cstep tid s i = { s with tasks := s.tasks.set i .slow } := by
  unfold cstep
  rw [h]
  dsimp only
  rw [hl]

theorem cstep_slow_found {tid : Nat} {s : ConcState} {i : Nat} {c : ChanState}
    (h : s.tasks.get? i = some .slow)
    (hl : lookupChan s.bus.registry tid = some c) (hm : c.msgTid = tid) :
    cstep tid s i = { bus := (subFound s.bus tid c).2,
                      tasks := s.tasks.set i (.done (subFound s.bus tid c).1) } := by
  unfold cstep
  rw [h]
  dsimp only
  rw [hl]
  dsimp only
  rw [if_pos hm]

theorem cstep_slow_found_mismatch {tid : Nat} {s : ConcState} {i : Nat} {c : ChanState}
    (h : s.tasks.get? i = some .slow)
    (hl : lookupChan s.bus.registry tid = some c) (hm : c.msgTid ≠ tid) :
    cstep tid s i = s := by
  unfold cstep
  rw [h]
  dsimp only
  rw [hl]
  dsimp only
  rw [if_neg hm]

theorem cstep_slow_create {tid : Nat} {s : ConcState} {i : Nat} {c : ChanState}
    {r : ReceiverState} (h : s.tasks.get? i = some .slow)
    (hl : lookupChan s.bus.registry tid = none)
    (hn : Broadcast.channelNew s.bus.nextId tid s.bus.default_capacity = some (c, r)) :
    cstep tid s i =
      { bus := { s.bus with registry := s.bus.registry ++ [(tid, c)],
                            nextId := s.bus.nextId + 1 },
        tasks := s.tasks.set i (.done r) } := by
  unfold cstep
  rw [h]
  dsimp only
  rw [hl]
  dsimp only
  rw [hn]

theorem cstep_slow_panic {tid : Nat} {s : ConcState} {i : Nat}
    (h : s.tasks.get? i = some .slow)
    (hl : lookupChan s.bus.registry tid = none)
    (hn : Broadcast.channelNew s.bus.nextId tid s.bus.default_capacity = none) :
    cstep tid s i = s := by
  unfold cstep
  rw [h]
  dsimp only
  rw [hl]
  dsimp only
  rw [hn]

end Conc

/-! ## Finished-task counting -/

namespace Conc

theorem doneCount_cons (t : TaskState) (ts : List TaskState) :
    doneCount (t :: ts) = (if t.isDone then 1 else 0) + doneCount ts := rfl

theorem doneCount_set_of_not_done {ts : List TaskState} {t : TaskState} :
    ∀ {i : Nat}, ts.get? i = some t → t.isDone = false → ∀ t' : TaskState,
      doneCount (ts.set i t') = doneCount ts + (if t'.isDone then 1 else 0) := by
  induction ts with
  | nil => intro i h _ _; exact absurd h (by simp)
  | cons a ts ih =>
    intro i h ht t'
    cases i with
    | zero =>
      injection h with h
      subst h
      show doneCount (t' :: ts) = _
      rw [doneCount_cons, doneCount_cons, ht]
      simp [Nat.add_comm]
    | succ i =>
      show doneCount (a :: ts.set i t') = _
      rw [doneCount_cons, doneCount_cons, ih h ht t']
      omega

theorem not_done_mem_of_doneCount_zero {ts : List TaskState} (h : doneCount ts = 0)
    {r : ReceiverState} : TaskState.done r ∉ ts := by
  induction ts with
  | nil => simp
  | cons a ts ih =>
    rw [doneCount_cons] at h
    intro hmem
    rcases List.mem_cons.mp hmem with he | hmem'
    · rw [← he] at h
      simp [TaskState.isDone] at h
    · have h0 : doneCount ts = 0 := by omega
      exact ih h0 hmem'

theorem doneCount_eq_length_of_allDone {ts : List TaskState} (h : AllDone ts) :
    doneCount ts = ts.length := by
  induction ts with
  | nil => rfl
  | cons a ts ih =>
    rw [doneCount_cons, h a (List.mem_cons_self a ts), List.length_cons,
        ih (fun t ht => h t (List.mem_cons_of_mem a ht))]
    simp [Nat.add_comm]

theorem doneCount_replicate_start (n : Nat) :
    doneCount (List.replicate n TaskState.start) = 0 := by
  induction n with
  | zero => rfl
  | succ n ih =>
    rw [List.replicate_succ, doneCount_cons, ih]
    simp [TaskState.isDone]

theorem countKey_singleton_self (t : Nat) (c : ChanState) : countKey [(t, c)] t = 1 := by
  simp [countKey]

/-- The inductive invariant of the N-task concurrent first-subscribe race on
type `tid`: either nobody has created the channel yet (and then nobody has
finished), or exactly one registry entry for `tid` exists, well-keyed, whose
receiver count equals the number of finished tasks, and every finished task
holds a receiver of that one channel. -/
def Inv (tid : Nat) (s : ConcState) : Prop :=
  (lookupChan s.bus.registry tid = none ∧ countKey s.bus.registry tid = 0 ∧
    doneCount s.tasks = 0)
  ∨ (∃ c, lookupChan s.bus.registry tid = some c ∧ countKey s.bus.registry tid = 1 ∧
      c.msgTid = tid ∧ c.receivers = doneCount s.tasks ∧
      ∀ r : ReceiverState, TaskState.done r ∈ s.tasks → r.chanId = c.id ∧ r.msgTid = tid)

end Conc

namespace Conc

theorem cstep_inv {tid : Nat} {s : ConcState} (h : Inv tid s) (i : Nat) :
    Inv tid (cstep tid s i) := by
  cases hget : s.tasks.get? i with
  | none => rw [cstep_none hget]; exact h
  | some t =>
    cases t with
    | done r => rw [cstep_done hget]; exact h
    | start =>
      cases hl : lookupChan s.bus.registry tid with
      | none =>
        rcases h with ⟨h1, h2, h3⟩ | ⟨c0, hc0, _⟩
        · rw [cstep_start_miss hget hl]
          left
          refine ⟨h1, h2, ?_⟩
          rw [doneCount_set_of_not_done hget rfl _, h3]
          simp [TaskState.isDone]
        · rw [hl] at hc0
          exact absurd hc0 (by simp)
      | some c =>
        rcases h with ⟨h1, _, _⟩ | ⟨c0, hc0, hk, hm, hrecv, hmem⟩
        · rw [hl] at h1
          exact absurd h1 (by simp)
        · rw [hl] at hc0
          injection hc0 with he
          subst he
          rw [cstep_start_found hget hl hm]
          right
          refine ⟨{ c with receivers := c.receivers + 1 },
            lookupChan_updateChan_self hl _, ?_, hm, ?_, ?_⟩
          · show countKey (updateChan s.bus.registry tid _) tid = 1
            rw [countKey_updateChan]
            exact hk
          · rw [doneCount_set_of_not_done hget rfl _]
            simp only [TaskState.isDone, if_pos]
            rw [← hrecv]
          · intro r hr
            rcases List.mem_or_eq_of_mem_set hr with hr' | hr'
            · exact hmem r hr'
            · injection hr' with hre
              rw [hre]
              exact ⟨rfl, hm⟩
    | slow =>
      cases hl : lookupChan s.bus.registry tid with
      | some c =>
        rcases h with ⟨h1, _, _⟩ | ⟨c0, hc0, hk, hm, hrecv, hmem⟩
        · rw [hl] at h1
          exact absurd h1 (by simp)
        · rw [hl] at hc0
          injection hc0 with he
          subst he
          rw [cstep_slow_found hget hl hm]
          right
          refine ⟨{ c with receivers := c.receivers + 1 },
            lookupChan_updateChan_self hl _, ?_, hm, ?_, ?_⟩
          · show countKey (updateChan s.bus.registry tid _) tid = 1
            rw [countKey_updateChan]
            exact hk
          · rw [doneCount_set_of_not_done hget rfl _]
            simp only [TaskState.isDone, if_pos]
            rw [← hrecv]
          · intro r hr
            rcases List.mem_or_eq_of_mem_set hr with hr' | hr'
            · exact hmem r hr'
            · injection hr' with hre
              rw [hre]
              exact ⟨rfl, hm⟩
      | none =>
        rcases h with ⟨h1, h2, h3⟩ | ⟨c0, hc0, _⟩
        · cases hn : Broadcast.channelNew s.bus.nextId tid s.bus.default_capacity with
          | none =>
            rw [cstep_slow_panic hget hl hn]
            exact Or.inl ⟨h1, h2, h3⟩
          | some p =>
            obtain ⟨hcdef, hrdef, hc0ne, hclt⟩ :=
              channelNew_inv (c := p.1) (r := p.2) (by rw [hn])
            rw [cstep_slow_create hget hl (by rw [hn])]
            right
            refine ⟨p.1, ?_, ?_, ?_, ?_, ?_⟩
            · rw [lookupChan_append_none h1]
              simp [lookupChan]
            · show countKey (s.bus.registry ++ [(tid, p.1)]) tid = 1
              rw [countKey_append, h2, countKey_singleton_self]
            · rw [hcdef]
            · rw [doneCount_set_of_not_done hget rfl _, h3, hcdef]
              simp [TaskState.isDone]
            · intro r hr
              rcases List.mem_or_eq_of_mem_set hr with hr' | hr'
              · exact absurd hr' (not_done_mem_of_doneCount_zero h3)
              · injection hr' with hre
                rw [hre, hrdef, hcdef]
                exact ⟨rfl, rfl⟩
        · rw [hl] at hc0
          exact absurd hc0 (by simp)

theorem crun_inv {tid : Nat} {s : ConcState} (h : Inv tid s) (sched : List Nat) :
    Inv tid (crun tid s sched) := by
  induction sched generalizing s with
  | nil => exact h
  | cons i sched ih => exact ih (cstep_inv h i)

theorem cstep_tasks_length (tid : Nat) (s : ConcState) (i : Nat) :
    (cstep tid s i).tasks.length = s.tasks.length := by
  cases hget : s.tasks.get? i with
  | none => rw [cstep_none hget]
  | some t =>
    cases t with
    | done r => rw [cstep_done hget]
    | start =>
      cases hl : lookupChan s.bus.registry tid with
      | none =>
        rw [cstep_start_miss hget hl]
        simp
      | some c =>
        by_cases hm : c.msgTid = tid
        · rw [cstep_start_found hget hl hm]
          simp
        · rw [cstep_start_found_mismatch hget hl hm]
    | slow =>
      cases hl : lookupChan s.bus.registry tid with
      | some c =>
        by_cases hm : c.msgTid = tid
        · rw [cstep_slow_found hget hl hm]
          simp
        · rw [cstep_slow_found_mismatch hget hl hm]
      | none =>
        cases hn : Broadcast.channelNew s.bus.nextId tid s.bus.default_capacity with
        | none => rw [cstep_slow_panic hget hl hn]
        | some p =>
          rw [cstep_slow_create hget hl (by rw [hn])]
          simp

theorem crun_tasks_length (tid : Nat) (s : ConcState) (sched : List Nat) :
    (crun tid s sched).tasks.length = s.tasks.length := by
  induction sched generalizing s with
  | nil => rfl
  | cons i sched ih =>
    show (crun tid (cstep tid s i) sched).tasks.length = _
    rw [ih (cstep tid s i), cstep_tasks_length]

end Conc

/-! ## Remaining helper lemmas -/

theorem run_append (s : BusState) (l1 l2 : List BusOp) :
    s.run (l1 ++ l2) = (s.run l1).run l2 := by
  induction l1 generalizing s with
  | nil => rfl
  | cons op l1 ih =>
    show (s.step op).run (l1 ++ l2) = _
    exact ih (s.step op)

theorem publish_ok_of_WK {s : BusState} (h : s.WK) (tid v : Nat) :
    ∃ n, (MessageBus.publish s tid v).1 = .ok n := by
  cases hl : lookupChan s.registry tid with
  | none => exact ⟨0, by rw [publish_not_found hl v]⟩
  | some c =>
    have hm : c.msgTid = tid := h (tid, c) (lookupChan_mem hl)
    rcases Nat.eq_zero_or_pos c.receivers with hr | hr
    · exact ⟨0, by rw [publish_found_zero hl hm hr v]⟩
    · exact ⟨c.receivers, by rw [publish_found hl hm hr v]⟩

theorem subscribe_no_corruption_of_WK {s : BusState} (h : s.WK) (tid : Nat) :
    MessageBus.subscribe s tid ≠ .corruptionPanic := by
  cases hl : lookupChan s.registry tid with
  | some c =>
    have hm : c.msgTid = tid := h (tid, c) (lookupChan_mem hl)
    rw [subscribe_found hl hm]
    simp
  | none =>
    cases hn : Broadcast.channelNew s.nextId tid s.default_capacity with
    | none =>
      have hp : MessageBus.subscribe s tid = .capacityPanic := by
        unfold MessageBus.subscribe
        rw [hl]
        dsimp only
        rw [hn]
      rw [hp]
      simp
    | some p =>
      obtain ⟨_, _, h0, h1⟩ := channelNew_inv (c := p.1) (r := p.2) (by rw [hn])
      rw [subscribe_new hl h0 h1]
      simp

/-! ## Claim theorems -/

/-- C1: for every message type, at most one channel is ever inserted into the
registry under that type, and once inserted it is never removed or replaced
(same channel identity, element type, and capacity forever); no sequence of
publish and subscribe operations from a fresh bus creates a duplicate entry
or swaps an existing one. -/
theorem registry_insert_once_never_replaced (cap : Nat) (ops ops' : List BusOp) (t : Nat) :
    insertCount t ((MessageBus.new cap).trace ops) ≤ 1 ∧
    ((((MessageBus.new cap).run ops).registry).map Prod.fst).Nodup ∧
    (∀ c, lookupChan ((MessageBus.new cap).run ops).registry t = some c →
      ∃ c', lookupChan ((MessageBus.new cap).run (ops ++ ops')).registry t = some c' ∧
        c'.id = c.id ∧ c'.msgTid = c.msgTid ∧ c'.capacity = c.capacity) := by
  refine ⟨insertCount_le_one t _ ops, keys_nodup_run (by simp [MessageBus.new]) ops, ?_⟩
  intro c hc
  rw [run_append]
  exact run_lookup_some hc ops'

/-- Witness for C1 at a concrete run: subscribe then publish on type 0, then
one more publish; the entry persists with identity 0. -/
theorem registry_insert_once_never_replaced_witness :
    insertCount 0 ((MessageBus.new 4).trace [BusOp.sub 0, BusOp.pub 0 5]) ≤ 1 ∧
    ((((MessageBus.new 4).run [BusOp.sub 0, BusOp.pub 0 5]).registry).map Prod.fst).Nodup ∧
    (∃ c', lookupChan ((MessageBus.new 4).run
        ([BusOp.sub 0, BusOp.pub 0 5] ++ [BusOp.pub 0 7])).registry 0 = some c' ∧
      c'.id = 0 ∧ c'.msgTid = 0 ∧ c'.capacity = 4) := by
  have h := registry_insert_once_never_replaced 4 [BusOp.sub 0, BusOp.pub 0 5] [BusOp.pub 0 7] 0
  refine ⟨h.1, h.2.1, ?_⟩
  obtain ⟨c', hc', h1, h2, h3⟩ := h.2.2 ⟨0, 0, 4, [5], 1, false⟩ (by decide)
  exact ⟨c', hc', h1, h2, h3⟩

/-- C3: publishing to a type with no subscribers is `Ok(0)` and leaves the
state unchanged — both when no channel is registered for the type and when
the channel exists but every subscription handle has been dropped
(zero live receivers); it is never an error (and, the model being a total
function, never blocks). -/
theorem publish_no_subscribers_ok_zero (s : BusState) (tid v : Nat) :
    (lookupChan s.registry tid = none → MessageBus.publish s tid v = (.ok 0, s)) ∧
    (∀ c, lookupChan s.registry tid = some c → c.msgTid = tid → c.receivers = 0 →
      MessageBus.publish s tid v = (.ok 0, s)) :=
  ⟨fun h => publish_not_found h v, fun _c h hm hr => publish_found_zero h hm hr v⟩

/-- Witness for C3: no channel for type 0 on a fresh bus, and a channel for
type 0 whose receiver count has dropped to zero. -/
theorem publish_no_subscribers_ok_zero_witness :
    MessageBus.publish (MessageBus.new 4) 0 7 = (.ok 0, MessageBus.new 4) ∧
    MessageBus.publish ⟨[(0, ⟨0, 0, 4, [], 0, false⟩)], 1, 4⟩ 0 7 =
      (.ok 0, ⟨[(0, ⟨0, 0, 4, [], 0, false⟩)], 1, 4⟩) :=
  ⟨(publish_no_subscribers_ok_zero (MessageBus.new 4) 0 7).1 (by decide),
   (publish_no_subscribers_ok_zero ⟨[(0, ⟨0, 0, 4, [], 0, false⟩)], 1, 4⟩ 0 7).2
     ⟨0, 0, 4, [], 0, false⟩ (by decide) (by decide) (by decide)⟩

/-- C5 counterexample: the first publish for a type does NOT create a channel;
on a fresh bus, publishing to type 0 returns `Ok(0)` and the registry stays
empty (no entry for 0), refuting "publish creates the channel on first use". -/
theorem publish_does_not_create_channel :
    MessageBus.publish (MessageBus.new 4) 0 7 = (.ok 0, MessageBus.new 4) ∧
    lookupChan (MessageBus.publish (MessageBus.new 4) 0 7).2.registry 0 = none ∧
    (MessageBus.publish (MessageBus.new 4) 0 7).2.registry = [] := by
  refine ⟨rfl, rfl, rfl⟩

/-- C5 (amended): a channel for a type is created only by the first subscribe
for that type — after it the registry holds exactly one entry for the type —
while a publish on a bus with no entry for the type leaves the registry
without such an entry. -/
theorem channel_created_on_first_subscribe_only (s : BusState) (tid v : Nat)
    (h : lookupChan s.registry tid = none) :
    (MessageBus.publish s tid v).2 = s ∧
    lookupChan ((MessageBus.publish s tid v).2).registry tid = none ∧
    (∀ r s', MessageBus.subscribe s tid = .ok r s' →
      countKey s'.registry tid = 1 ∧ lookupChan s'.registry tid ≠ none) := by
  refine ⟨by rw [publish_not_found h v], by rw [publish_not_found h v]; exact h, ?_⟩
  intro r s' hsub
  rcases subscribe_ok_inversion hsub with ⟨c, hc, _⟩ | ⟨_, _, hs'⟩
  · rw [h] at hc
    exact absurd hc (by simp)
  · subst hs'
    constructor
    · show countKey (s.registry ++ [_]) tid = 1
      rw [countKey_append, countKey_eq_zero_of_lookup_none h, Conc.countKey_singleton_self]
    · rw [lookupChan_append_none h]
      simp [lookupChan]

/-- Witness for C5 (amended) at type 1 on a fresh bus. -/
theorem channel_created_on_first_subscribe_only_witness :
    (MessageBus.publish (MessageBus.new 4) 1 7).2 = MessageBus.new 4 ∧
    countKey (⟨[(1, ⟨0, 1, 4, [], 1, false⟩)], 1, 4⟩ : BusState).registry 1 = 1 := by
  have h := channel_created_on_first_subscribe_only (MessageBus.new 4) 1 7 (by decide)
  exact ⟨h.1, (h.2.2 ⟨1, 0, 0⟩ ⟨[(1, ⟨0, 1, 4, [], 1, false⟩)], 1, 4⟩ (by decide)).1⟩

/-- C6 counterexample: with a corrupted registry entry (key 0 holding a
channel of element type 1), a publish surfaces the mismatch as the returned
error value `Err("Type mismatch")` — a routine `Result` handed back to the
caller (the embedding of `publish` has no panic outcome: the Rust code's
`?` operator returns the error instead of asserting) — refuting the claim
that a mismatch during publish aborts via a fatal assertion. -/
theorem mismatch_error_returned_on_publish :
    MessageBus.publish ⟨[(0, ⟨5, 1, 4, [], 3, false⟩)], 6, 4⟩ 0 9 =
      (.error "Type mismatch", ⟨[(0, ⟨5, 1, 4, [], 3, false⟩)], 6, 4⟩) := rfl

/-- C6 (amended): a type mismatch in the erasure layer is always surfaced
distinctly from ordinary outcomes, but differently per operation: `subscribe`
aborts with the fatal `expect` assertion (corruption panic), while `publish`
returns the dedicated error value `Err("Type mismatch")` — never confused
with any ordinary `Ok(n)` — and leaves the state untouched. -/
theorem mismatch_distinct_surfacing (s : BusState) (tid v : Nat) (c : ChanState)
    (h : lookupChan s.registry tid = some c) (hm : c.msgTid ≠ tid) :
    MessageBus.publish s tid v = (.error "Type mismatch", s) ∧
    (∀ n, (MessageBus.publish s tid v).1 ≠ .ok n) ∧
    MessageBus.subscribe s tid = .corruptionPanic := by
  have hp := publish_mismatch h hm v
  refine ⟨hp, ?_, subscribe_found_mismatch h hm⟩
  intro n
  rw [hp]
  simp

/-- Witness for C6 (amended) at a concrete corrupted state. -/
theorem mismatch_distinct_surfacing_witness :
    MessageBus.publish ⟨[(2, ⟨0, 3, 4, [], 1, false⟩)], 1, 4⟩ 2 9 =
      (.error "Type mismatch", ⟨[(2, ⟨0, 3, 4, [], 1, false⟩)], 1, 4⟩) ∧
    (MessageBus.publish ⟨[(2, ⟨0, 3, 4, [], 1, false⟩)], 1, 4⟩ 2 9).1 ≠ .ok 0 ∧
    MessageBus.subscribe ⟨[(2, ⟨0, 3, 4, [], 1, false⟩)], 1, 4⟩ 2 = .corruptionPanic := by
  have h := mismatch_distinct_surfacing ⟨[(2, ⟨0, 3, 4, [], 1, false⟩)], 1, 4⟩ 2 9
    ⟨0, 3, 4, [], 1, false⟩ (by decide) (by decide)
  exact ⟨h.1, h.2.1 0, h.2.2⟩

/-- C9: through the public interface the type-recovery failure branches are
unreachable: on any bus state reachable from `new` by publish and subscribe
operations, `publish` never returns an error (in particular never
"Type mismatch" — the downcast inside `send_any` cannot fail because the
registry maps each `TypeId` only to a channel of that element type), and
`subscribe` never hits the fatal downcast assertion. -/
theorem erasure_branches_unreachable (cap : Nat) (ops : List BusOp) (tid v : Nat) :
    (∃ n, (MessageBus.publish ((MessageBus.new cap).run ops) tid v).1 = .ok n) ∧
    MessageBus.subscribe ((MessageBus.new cap).run ops) tid ≠ .corruptionPanic := by
  have hwk : ((MessageBus.new cap).run ops).WK :=
    WK_run (WK_new cap) ops
  exact ⟨publish_ok_of_WK hwk tid v, subscribe_no_corruption_of_WK hwk tid⟩

/-- Witness for C9 at a concrete reachable state. -/
theorem erasure_branches_unreachable_witness :
    (∃ n, (MessageBus.publish ((MessageBus.new 4).run [BusOp.sub 0]) 0 7).1 = .ok n) ∧
    MessageBus.subscribe ((MessageBus.new 4).run [BusOp.sub 0]) 0 ≠
      MessageBus.SubscribeResult.corruptionPanic :=
  erasure_branches_unreachable 4 [BusOp.sub 0] 0 7

/-- C10: the constructor does not validate its capacity: `new(0)` succeeds
and returns a bus with an empty registry, but on that bus every first
subscribe aborts in the `broadcast::channel` capacity assertion; subscribe
is total only under the precondition that the capacity is at least 1 (and
within the channel's accepted range). -/
theorem new_zero_capacity_subscribe_panics :
    (MessageBus.new 0).registry = [] ∧
    (∀ tid, MessageBus.subscribe (MessageBus.new 0) tid = .capacityPanic) ∧
    (∀ cap tid, 1 ≤ cap → cap < 2 ^ 63 →
      MessageBus.subscribe (MessageBus.new cap) tid ≠ .capacityPanic) := by
  refine ⟨rfl, ?_, ?_⟩
  · intro tid
    exact subscribe_new_panic rfl (Or.inl rfl)
  · intro cap tid h1 h2
    have h0 : cap ≠ 0 := by omega
    have hnone : lookupChan (MessageBus.new cap).registry tid = none := rfl
    rw [subscribe_new hnone h0 h2]
    simp

/-- Witness for C10: capacity 0 panics on subscribe for type 3; capacity 4
does not. -/
theorem new_zero_capacity_subscribe_panics_witness :
    (MessageBus.new 0).registry = [] ∧
    MessageBus.subscribe (MessageBus.new 0) 3 = .capacityPanic ∧
    MessageBus.subscribe (MessageBus.new 4) 3 ≠ .capacityPanic :=
  ⟨new_zero_capacity_subscribe_panics.1,
   new_zero_capacity_subscribe_panics.2.1 3,
   new_zero_capacity_subscribe_panics.2.2 4 3 (by decide) (by decide)⟩

/-- C4: on a bus of capacity 4, one subscriber to type 0 that receives nothing
while 1,2,3,4,5,6 are published sees, on its first receive, `Lagged(2)`, and
then 3, 4, 5, 6 in order with no duplicates, after which it would block
(nothing further is delivered).  The subscriber's handle starts at cursor 0,
as returned by the subscribe call. -/
theorem capacity_four_lag_scenario :
    MessageBus.subscribe (MessageBus.new 4) 0 =
      .ok ⟨0, 0, 0⟩ ⟨[(0, ⟨0, 0, 4, [], 1, false⟩)], 1, 4⟩ ∧
    ([1, 2, 3, 4, 5, 6].foldl (fun s v => (MessageBus.publish s 0 v).2)
        ⟨[(0, ⟨0, 0, 4, [], 1, false⟩)], 1, 4⟩) =
      ⟨[(0, ⟨0, 0, 4, [1, 2, 3, 4, 5, 6], 1, false⟩)], 1, 4⟩ ∧
    (recvN ⟨0, 0, 4, [1, 2, 3, 4, 5, 6], 1, false⟩ 0 6).1 =
      [.lagged 2, .value 3, .value 4, .value 5, .value 6, .wouldBlock] := by
  refine ⟨rfl, rfl, rfl⟩

/-- C7 counterexample: a handle with a buffered undelivered value at teardown
still receives that value on its next receive, not Closed — refuting "no
further values are ever delivered".  The state is reached by subscribing on a
fresh capacity-4 bus and publishing 7 before the teardown. -/
theorem buffered_value_delivered_after_teardown :
    (MessageBus.publish ⟨[(0, ⟨0, 0, 4, [], 1, false⟩)], 1, 4⟩ 0 7).2 =
      ⟨[(0, ⟨0, 0, 4, [7], 1, false⟩)], 1, 4⟩ ∧
    teardown ⟨[(0, ⟨0, 0, 4, [7], 1, false⟩)], 1, 4⟩ =
      ⟨[(0, ⟨0, 0, 4, [7], 1, true⟩)], 1, 4⟩ ∧
    Broadcast.recv ⟨0, 0, 4, [7], 1, true⟩ 0 = (.value 7, 1) := by
  refine ⟨rfl, rfl, rfl⟩

/-- C7 (amended): after the bus is torn down, every outstanding handle that
is caught up (its cursor has reached the channel's tail, no buffered values
pending) reports Closed on its next receive and on every receive thereafter
— never Lagged, and no value is ever delivered to it again. -/
theorem caught_up_recv_closed_after_teardown (s : BusState) (tid : Nat)
    (c : ChanState) (cur : Nat)
    (h : lookupChan (teardown s).registry tid = some c)
    (hcur : c.log.length ≤ cur) (n : Nat) :
    c.closed = true ∧
    Broadcast.recv c cur = (.closed, cur) ∧
    recvN c cur n = (List.replicate n RecvResult.closed, cur) := by
  rw [lookupChan_teardown] at h
  cases hl : lookupChan s.registry tid with
  | none =>
    rw [hl] at h
    exact absurd h (by simp)
  | some c0 =>
    rw [hl] at h
    injection h with he
    have hc : c.closed = true := by rw [← he]
    exact ⟨hc, recv_tail_closed hcur hc, recvN_closed_replicate hc hcur n⟩

/-- Witness for C7 (amended): a caught-up handle (cursor 0, empty log) on the
closed channel left by tearing down a one-subscriber bus. -/
theorem caught_up_recv_closed_after_teardown_witness :
    (⟨0, 0, 4, [], 1, true⟩ : ChanState).closed = true ∧
    Broadcast.recv ⟨0, 0, 4, [], 1, true⟩ 0 = (.closed, 0) ∧
    recvN ⟨0, 0, 4, [], 1, true⟩ 0 3 = ([.closed, .closed, .closed], 0) := by
  have h := caught_up_recv_closed_after_teardown ⟨[(0, ⟨0, 0, 4, [], 1, false⟩)], 1, 4⟩ 0
    ⟨0, 0, 4, [], 1, true⟩ 0 (by decide) (by decide) 3
  exact ⟨h.1, h.2.1, h.2.2⟩

/-- C2 counterexample: on a capacity-1 bus with one live handle (obtained by
the subscribe shown), publishing 10 returns `Ok(1)` — one live handle — and
then publishing 20 evicts 10 before the handle ever receives: the handle
observes only `[20]`, never its copy of 10.  So "each of the k handles
observes its own copy of v" fails as an unconditional statement. -/
theorem publish_value_lost_under_lag :
    MessageBus.subscribe (MessageBus.new 1) 0 =
      .ok ⟨0, 0, 0⟩ ⟨[(0, ⟨0, 0, 1, [], 1, false⟩)], 1, 1⟩ ∧
    (MessageBus.publish ⟨[(0, ⟨0, 0, 1, [], 1, false⟩)], 1, 1⟩ 0 10).1 = .ok 1 ∧
    (MessageBus.publish ⟨[(0, ⟨0, 0, 1, [], 1, false⟩)], 1, 1⟩ 0 10).2 =
      ⟨[(0, ⟨0, 0, 1, [10], 1, false⟩)], 1, 1⟩ ∧
    (MessageBus.publish ⟨[(0, ⟨0, 0, 1, [10], 1, false⟩)], 1, 1⟩ 0 20).2 =
      ⟨[(0, ⟨0, 0, 1, [10, 20], 1, false⟩)], 1, 1⟩ ∧
    observed ⟨0, 0, 1, [10, 20], 1, false⟩ 0 = [20] ∧
    10 ∉ observed ⟨0, 0, 1, [10, 20], 1, false⟩ 0 := by
  refine ⟨rfl, rfl, rfl, rfl, rfl, by decide⟩

/-- C2 (amended): on a channel for the type with k live handles, publish
returns `Ok(k)`; when k ≥ 1 the value is appended to the channel's log, a
handle whose cursor is at most the old tail and which has not fallen more
than the capacity behind observes exactly the published values from its
cursor onward — ending with the new value — and in general every handle's
observation sequence is a suffix of the publish log (hence all handles
observe values in the same relative order in which they were published). -/
theorem publish_count_append_observe (s : BusState) (tid v : Nat) (c : ChanState)
    (h : lookupChan s.registry tid = some c) (hm : c.msgTid = tid) :
    (MessageBus.publish s tid v).1 = .ok c.receivers ∧
    (0 < c.receivers →
      ∃ c', lookupChan (MessageBus.publish s tid v).2.registry tid = some c' ∧
        c'.id = c.id ∧ c'.capacity = c.capacity ∧ c'.log = c.log ++ [v] ∧
        (∀ i, i ≤ c.log.length → c'.log.length ≤ i + c'.capacity →
          observed c' i = c.log.drop i ++ [v]) ∧
        (∀ i, observed c' i <:+ c'.log)) := by
  constructor
  · rcases Nat.eq_zero_or_pos c.receivers with hr | hr
    · rw [publish_found_zero h hm hr v, hr]
    · rw [publish_found h hm hr v]
  · intro hr
    rw [publish_found h hm hr v]
    refine ⟨{ c with log := c.log ++ [v] },
      lookupChan_updateChan_self h _, rfl, rfl, rfl, ?_, ?_⟩
    · intro i hi hcap
      have hcap' : c.log.length + 1 ≤ i + c.capacity := by
        simpa using hcap
      rw [observed_eq]
      have hmax : max i (({ c with log := c.log ++ [v] } : ChanState).log.length -
          ({ c with log := c.log ++ [v] } : ChanState).capacity) = i := by
        show max i ((c.log ++ [v]).length - c.capacity) = i
        rw [List.length_append]
        simp only [List.length_singleton]
        omega
      rw [hmax]
      show (c.log ++ [v]).drop i = c.log.drop i ++ [v]
      rw [List.drop_append_eq_append_drop, Nat.sub_eq_zero_of_le hi, List.drop_zero]
    · intro i
      exact observed_suffix _ i

/-- Witness for C2 (amended): two live handles, one buffered value, publish 9;
the caught-up handle at cursor 0 observes `[1, 9]`. -/
theorem publish_count_append_observe_witness :
    (MessageBus.publish ⟨[(0, ⟨0, 0, 4, [1], 2, false⟩)], 1, 4⟩ 0 9).1 = .ok 2 ∧
    observed ⟨0, 0, 4, [1, 9], 2, false⟩ 0 = [1, 9] := by
  have h := publish_count_append_observe ⟨[(0, ⟨0, 0, 4, [1], 2, false⟩)], 1, 4⟩ 0 9
    ⟨0, 0, 4, [1], 2, false⟩ (by decide) (by decide)
  obtain ⟨c', hc', hid, hcapa, hlog, hobs, hsuf⟩ := h.2 (by decide)
  have hlook : lookupChan (MessageBus.publish ⟨[(0, ⟨0, 0, 4, [1], 2, false⟩)], 1, 4⟩
      0 9).2.registry 0 = some ⟨0, 0, 4, [1, 9], 2, false⟩ := by decide
  rw [hlook] at hc'
  injection hc' with he
  subst he
  refine ⟨h.1, ?_⟩
  have hob := hobs 0 (by decide) (by decide)
  simpa using hob

/-- C8: for any interleaving (schedule) of N tasks that all run a first-time
subscribe for a never-before-seen type `tid` — read-locked check first,
write-locked double-check-then-insert on a miss — once every task has
finished, exactly one registry entry for `tid` exists, its channel is
well-keyed with receiver count N, and every task's handle is a live receiver
of that single channel (same channel identity). -/
theorem concurrent_first_subscribe_single_channel (tid N : Nat) (b0 : BusState)
    (sched : List Nat) (hN : 0 < N)
    (habsent : lookupChan b0.registry tid = none)
    (hfinal : Conc.AllDone (Conc.crun tid ⟨b0, List.replicate N .start⟩ sched).tasks) :
    ∃ c, lookupChan (Conc.crun tid ⟨b0, List.replicate N .start⟩ sched).bus.registry tid
        = some c ∧
      countKey (Conc.crun tid ⟨b0, List.replicate N .start⟩ sched).bus.registry tid = 1 ∧
      c.msgTid = tid ∧ c.receivers = N ∧
      (∀ r, Conc.TaskState.done r ∈ (Conc.crun tid ⟨b0, List.replicate N .start⟩ sched).tasks →
        r.chanId = c.id ∧ r.msgTid = tid) := by
  have hinv0 : Conc.Inv tid ⟨b0, List.replicate N .start⟩ :=
    Or.inl ⟨habsent, countKey_eq_zero_of_lookup_none habsent,
      Conc.doneCount_replicate_start N⟩
  have hinv := Conc.crun_inv hinv0 sched
  have hlen : (Conc.crun tid ⟨b0, List.replicate N .start⟩ sched).tasks.length = N := by
    rw [Conc.crun_tasks_length]
    exact List.length_replicate N _
  have hdone : Conc.doneCount (Conc.crun tid ⟨b0, List.replicate N .start⟩ sched).tasks = N := by
    rw [Conc.doneCount_eq_length_of_allDone hfinal, hlen]
  rcases hinv with ⟨_, _, h3⟩ | ⟨c, hc, hk, hm, hrecv, hmem⟩
  · rw [hdone] at h3
    omega
  · exact ⟨c, hc, hk, hm, by rw [hrecv, hdone], hmem⟩

/-- Witness for C8: two tasks race on type 0 over a fresh capacity-4 bus with
the fully interleaved schedule [0, 1, 0, 1] (both read-miss first, then task 0
creates under the write lock, then task 1 double-checks and joins); exactly
one channel exists, with two receivers. -/
theorem concurrent_first_subscribe_single_channel_witness :
    lookupChan (Conc.crun 0 ⟨MessageBus.new 4, List.replicate 2 .start⟩
        [0, 1, 0, 1]).bus.registry 0 = some ⟨0, 0, 4, [], 2, false⟩ ∧
    countKey (Conc.crun 0 ⟨MessageBus.new 4, List.replicate 2 .start⟩
        [0, 1, 0, 1]).bus.registry 0 = 1 ∧
    (⟨0, 0, 4, [], 2, false⟩ : ChanState).receivers = 2 := by
  have h := concurrent_first_subscribe_single_channel 0 2 (MessageBus.new 4) [0, 1, 0, 1]
    (by decide) (by decide) (by unfold Conc.AllDone; decide)
  obtain ⟨c, hc, hk, hm, hr, hmem⟩ := h
  have hlook : lookupChan (Conc.crun 0 ⟨MessageBus.new 4, List.replicate 2 .start⟩
      [0, 1, 0, 1]).bus.registry 0 = some ⟨0, 0, 4, [], 2, false⟩ := by decide
  rw [hlook] at hc
  injection hc with he
  subst he
  exact ⟨hlook, hk, hr⟩
